import Mathlib

/-!
Shallow embedding of the Wave Function Collapse solver in `src/main.rs`.

Modelling conventions, used consistently below:

* `usize` ids become `ℕ`; `Vec<T>` becomes `List T`.
* `f32` arithmetic is idealized as exact rational arithmetic (`ℚ`).  The two
  sources of values the program does not compute algebraically are injected as
  parameters: the `f32::log2` function (parameter `log2 : ℚ → ℚ`) and the
  uniform random draw `rand::random()` (parameter `r : ℚ`, a stream `rs` in the
  driver).  `f32::MAX` is the exact rational value of the largest finite `f32`.
* A Rust panic (`Option::unwrap` on `None`, `Result::unwrap` on `Err`) is
  modelled by an `Option`-valued function returning `none`.
* Out-of-range `Vec` indexing in reads is modelled by `List.getD` with a
  default; every place a theorem depends on an indexed read, the index is in
  range, so the default is never load-bearing there.
-/

/-- Cell of the grid: `enum Seat` of `src/main.rs` (lines 51-55). -/
inductive Seat where
  | Collapsed : ℕ → Seat
  | Uncertain : List ℕ → Seat
deriving DecidableEq

/-- Four unit offsets: `enum Direction` of `src/main.rs` (lines 65-71). -/
inductive Direction where
  | LEFT : Direction
  | RIGHT : Direction
  | UP : Direction
  | DOWN : Direction
deriving DecidableEq

/-- Adjacency rule: `struct Rule(usize, usize, Direction)` of `src/main.rs`
(line 89).  Field `allowed` is position 0 (the id allowed to sit at the
offset), `subject` is position 1, `dir` is position 2. -/
structure Rule where
  allowed : ℕ
  subject : ℕ
  dir : Direction
deriving DecidableEq

/-- Solver state: `enum GridState` of `src/main.rs` (lines 91-96). -/
inductive GridState where
  | Uncollapsed : GridState
  | Collapsed : GridState
  | Contradicting : GridState
deriving DecidableEq

/-- The output lattice: `struct Grid` of `src/main.rs` (lines 8-13). -/
structure Grid where
  data : List (List Seat)
  num_possibilities : ℕ
  w : ℕ
  h : ℕ
deriving DecidableEq

/-- Read `data[y][x]` (a `getD` rendering of Rust `self[y][x]`). -/
def seatAt (d : List (List Seat)) (p : ℕ × ℕ) : Seat :=
  (d.getD p.1 []).getD p.2 (Seat.Uncertain [])

/-- Write `data[y][x] = s` in place (`List.set` rendering of the Rust
index assignment). -/
def setSeat (d : List (List Seat)) (y x : ℕ) (s : Seat) : List (List Seat) :=
  d.set y ((d.getD y []).set x s)

/-- Read one cell of a grid. -/
def Grid.seat (g : Grid) (y x : ℕ) : Seat :=
  seatAt g.data (y, x)

/-- Candidate-set size of a cell, reading `Collapsed id` as the singleton
set `{id}` (the spec's "a `Collapsed` cell is semantically equivalent to
`Uncertain({id})`"). -/
def Seat.card : Seat → ℕ
  | .Collapsed _ => 1
  | .Uncertain v => v.length

/-- `Seat::get_id` of `src/main.rs` (lines 58-63).  The Rust function returns
`Result<usize, &str>`; the error case (`Err("Tried to get id of an uncertain
seat")`) is modelled as `none`. -/
def Seat.get_id : Seat → Option ℕ
  | .Collapsed v => some v
  | .Uncertain _ => none

/-- `Seat::new` of `src/main.rs` (lines 262-270). -/
def Seat.new (num_possibilities : ℕ) : Seat :=
  if num_possibilities > 1 ∨ num_possibilities = 0 then
    Seat.Uncertain (List.range num_possibilities)
  else
    Seat.Collapsed 0

/-- `Grid::new` of `src/main.rs` (lines 99-106). -/
def Grid.new (w h num_possibilities : ℕ) : Grid :=
  { data := List.replicate h (List.replicate w (Seat.new num_possibilities))
    num_possibilities := num_possibilities
    w := w
    h := h }

/-- The `any` predicate of `Grid::get_state` (lines 113-116): the cell is an
`Uncertain` with an empty candidate list. -/
def seatContradicting : Seat → Bool
  | .Uncertain v => v.length == 0
  | .Collapsed _ => false

/-- The `all` predicate of `Grid::get_state` (lines 124-127): the cell is
`Collapsed`, or `Uncertain` with exactly one candidate. -/
def seatSettled : Seat → Bool
  | .Uncertain v => v.length == 1
  | .Collapsed _ => true

/-- `Grid::get_state` of `src/main.rs` (lines 107-133). -/
def Grid.get_state (g : Grid) : GridState :=
  if g.data.flatten.any seatContradicting then GridState.Contradicting
  else if g.data.flatten.all seatSettled then GridState.Collapsed
  else GridState.Uncollapsed

/-- `shannon_entropy` of `src/main.rs` (lines 73-85), generic over the scalar
field so the same definition serves the idealized-real reading (`K = ℝ`,
`log2 = Real.logb 2`) and the executable solver embedding (`K = ℚ` with an
injected `log2`).  `weights[*v]` is read with default `0`. -/
def shannon_entropy {K : Type} [Field K] (log2 : K → K) (seat : Seat)
    (weights : List K) : K :=
  match seat with
  | .Collapsed _ => 0
  | .Uncertain possibilities =>
    let sum : K := (possibilities.map (fun v => weights.getD v 0)).sum
    let log_sum : K :=
      (possibilities.map (fun v => weights.getD v 0 * log2 (weights.getD v 0))).sum
    log2 sum - log_sum / sum

/-- Push `v` unless already present: the `if !temp_possibilities.contains`
pattern of `Grid::possibilities` (lines 149-151, 161-163). -/
def pushNew (acc : List ℕ) (v : ℕ) : List ℕ :=
  if acc.contains v then acc else acc ++ [v]

/-- One rule query of `Grid::possibilities`: all `allowed` ids of rules with
the given `subject` and `dir`, appended to `acc` without duplicates
(lines 144-152 and 156-164). -/
def ruleLookup (rules : List Rule) (cell_type : ℕ) (direction : Direction)
    (acc : List ℕ) : List ℕ :=
  ((rules.filter (fun r => r.subject == cell_type && r.dir == direction)).map
    (fun r => r.allowed)).foldl pushNew acc

/-- `Grid::possibilities` of `src/main.rs` (lines 134-172).  The Rust method
takes `&self` but never uses it, so the embedding drops the receiver. -/
def possibilities (surrounding : Seat) (direction : Direction)
    (rules : List Rule) : Option (List ℕ) :=
  let temp :=
    match surrounding with
    | .Uncertain s => s.foldl (fun acc ct => ruleLookup rules ct direction acc) []
    | .Collapsed ct => ruleLookup rules ct direction []
  if temp.length = 0 then none else some temp

/-- Exact rational value of `f32::MAX`, the initial minimum in the entropy
scan (line 174). -/
def f32MAX : ℚ := 2 ^ 128 - 2 ^ 104

/-- Lazy finalization applied to one cell: an `Uncertain` cell with exactly
one candidate becomes `Collapsed` (lines 181-185); everything else is kept. -/
def finalizeSeat : Seat → Seat
  | .Uncertain v => if v.length = 1 then Seat.Collapsed (v.getD 0 0) else Seat.Uncertain v
  | .Collapsed i => Seat.Collapsed i

/-- One iteration of the entropy scan of `Grid::step` (lines 175-192): state is
the mutable `data` plus the running `min_entropy = (y, x, e)` triple.
`Collapsed` cells are skipped (`continue`); an `Uncertain` cell with one
candidate is first collapsed in place, then the entropy of the (possibly just
rewritten) cell is compared against the running minimum with strict `<`. -/
def scanCell (log2 : ℚ → ℚ) (weights : List ℚ)
    (st : List (List Seat) × ℕ × ℕ × ℚ) (p : ℕ × ℕ) :
    List (List Seat) × ℕ × ℕ × ℚ :=
  let d := st.1
  let m := st.2
  match seatAt d p with
  | .Collapsed _ => (d, m)
  | .Uncertain v =>
    let d1 := if v.length = 1 then setSeat d p.1 p.2 (Seat.Collapsed (v.getD 0 0)) else d
    let e := shannon_entropy log2 (seatAt d1 p) weights
    if e < m.2.2 then (d1, (p.1, p.2, e)) else (d1, m)

/-- Row-major traversal order of the nested `for y / for x` loops. -/
def positions (h w : ℕ) : List (ℕ × ℕ) :=
  (List.range h).product (List.range w)

/-- The full entropy scan of `Grid::step` (lines 174-192): fold `scanCell` over
the grid in row-major order starting from `min_entropy = (0, 0, f32::MAX)`. -/
def entropyScan (g : Grid) (log2 : ℚ → ℚ) (weights : List ℚ) :
    List (List Seat) × ℕ × ℕ × ℚ :=
  (positions g.h g.w).foldl (scanCell log2 weights) (g.data, (0, 0, f32MAX))

/-- Push an optional neighbor contribution: `if ..._possibilities.is_some()
{ collection.push(...unwrap()) }` (lines 197-199 etc.). -/
def pushSome (coll : List (List ℕ)) (o : Option (List ℕ)) : List (List ℕ) :=
  match o with
  | some p => coll ++ [p]
  | none => coll

/-- The neighbor-constraint collection of `Grid::step` (lines 193-221), built
in source order UP, DOWN, RIGHT, LEFT with the source's edge guards. -/
def neighborColl (d : List (List Seat)) (hh ww : ℕ) (y x : ℕ)
    (rules : List Rule) : List (List ℕ) :=
  let c0 : List (List ℕ) := []
  let c1 := if y ≠ 0 then pushSome c0 (possibilities (seatAt d (y - 1, x)) Direction.UP rules) else c0
  let c2 := if y < hh - 1 then pushSome c1 (possibilities (seatAt d (y + 1, x)) Direction.DOWN rules) else c1
  let c3 := if x < ww - 1 then pushSome c2 (possibilities (seatAt d (y, x + 1)) Direction.RIGHT rules) else c2
  let c4 := if x ≠ 0 then pushSome c3 (possibilities (seatAt d (y, x - 1)) Direction.LEFT rules) else c3
  c4

/-- The intersection of `Grid::step` (lines 222-229): `pop().unwrap()` takes the
last pushed contribution (`none` here models the panic on an empty collection),
then each remaining contribution `p`, in push order, replaces the running set by
`p` filtered to members of the running set. -/
def intersectColl (coll : List (List ℕ)) : Option (List ℕ) :=
  match coll.getLast? with
  | none => none
  | some p0 => some (coll.dropLast.foldl (fun poss p => p.filter (fun v => poss.contains v)) p0)

/-- The stable ascending sort by weight of `Grid::step` (line 230):
`sort_by(total_cmp)` is a stable sort, as is `List.mergeSort`. -/
def sortByWeight (ps : List ℕ) (weights : List ℚ) : List ℕ :=
  ps.mergeSort (fun a b => decide (weights.getD a 0 ≤ weights.getD b 0))

/-- The weighted-sampling scan of `Grid::step` (lines 231-241): first candidate
whose weight strictly exceeds the random draw `r`, else the last candidate. -/
def sampleIdx (ps : List ℕ) (weights : List ℚ) (r : ℚ) : Option ℕ :=
  match ps.find? (fun v => decide (r < weights.getD v 0)) with
  | some v => some v
  | none => ps.getLast?

/-- `Grid::step` of `src/main.rs` (lines 173-246).  `r` is the injected value
of `rand::random()`.  `none` models the `unwrap` panic at line 222. -/
def Grid.step (g : Grid) (rules : List Rule) (weights : List ℚ)
    (log2 : ℚ → ℚ) (r : ℚ) : Option Grid :=
  let sc := entropyScan g log2 weights
  let d := sc.1
  let y := sc.2.1
  let x := sc.2.2.1
  match intersectColl (neighborColl d g.h g.w y x rules) with
  | none => none
  | some ps =>
    let sorted := sortByWeight ps weights
    let new_seat :=
      match sampleIdx sorted weights r with
      | some v => Seat.Collapsed v
      | none => Seat.Uncertain []
    some { g with data := setSeat d y x new_seat }

/-- The grid replacement of the `Contradicting` arm of `Grid::collapse`
(line 255): every cell is replaced by `Seat::new(num_possibilities)`. -/
def Grid.reset (g : Grid) : Grid :=
  { g with data := List.replicate g.h (List.replicate g.w (Seat.new g.num_possibilities)) }

/-- `Grid::collapse` of `src/main.rs` (lines 247-259).  The Rust recursion is
unbounded; `fuel` bounds the recursion depth, with `none` meaning the bound was
reached (or a `step` panicked).  `rs` is the injected stream of random draws,
consumed one per `step`. -/
def Grid.collapse (g : Grid) (rules : List Rule) (weights : List ℚ)
    (log2 : ℚ → ℚ) (rs : ℕ → ℚ) : ℕ → Option Grid
  | 0 => none
  | fuel + 1 =>
    match g.get_state with
    | GridState.Uncollapsed =>
      match g.step rules weights log2 (rs 0) with
      | none => none
      | some g1 => g1.collapse rules weights log2 (fun n => rs (n + 1)) fuel
    | GridState.Collapsed => some g
    | GridState.Contradicting => g.reset.collapse rules weights log2 rs fuel

/-- Increment `weights[i]` (the count vector of `generate_rules`, lines
279 and 283; out-of-range `i` is a no-op where Rust would panic, but every
id counted by the claims is in range). -/
def incrAt (counts : List ℕ) (i : ℕ) : List ℕ :=
  counts.set i (counts.getD i 0 + 1)

/-- The per-cell count update of `generate_rules` (lines 277-286). -/
def bumpCounts (counts : List ℕ) : Seat → List ℕ
  | .Collapsed i => incrAt counts i
  | .Uncertain v => v.foldl incrAt counts

/-- Rule insertion with structural dedup (`if !rules.contains(...)`,
lines 301-312). -/
def addRule (rules : List Rule) (r : Rule) : List Rule :=
  if rules.contains r then rules else rules ++ [r]

/-- One interior cell of the rule scan of `generate_rules` (lines 295-312).
All five `get_id().unwrap()` calls are in the `Option` monad (`none` models
the panic on an uncollapsed sample cell).  Note the source reads `up` from
row `y + 1` and `down` from row `y - 1`. -/
def ruleStep (g : Grid) (rules : List Rule) (p : ℕ × ℕ) : Option (List Rule) := do
  let current ← (g.seat p.1 p.2).get_id
  let left ← (g.seat p.1 (p.2 - 1)).get_id
  let right ← (g.seat p.1 (p.2 + 1)).get_id
  let up ← (g.seat (p.1 + 1) p.2).get_id
  let down ← (g.seat (p.1 - 1) p.2).get_id
  let rules1 := addRule rules (Rule.mk left current Direction.LEFT)
  let rules2 := addRule rules1 (Rule.mk right current Direction.RIGHT)
  let rules3 := addRule rules2 (Rule.mk up current Direction.UP)
  let rules4 := addRule rules3 (Rule.mk down current Direction.DOWN)
  return rules4

/-- Interior positions of the rule scan: `for y in 1..(h-1), x in 1..(w-1)`
(lines 293-294), rendered with truncated `ℕ` subtraction; for `h ≥ 1` this is
exactly the Rust range (empty when `h ≤ 2`), matching row counts
`(h - 1) - 1 = h - 2`. -/
def interiorPositions (g : Grid) : List (ℕ × ℕ) :=
  (List.range' 1 (g.h - 2)).product (List.range' 1 (g.w - 2))

/-- `generate_rules` of `src/main.rs` (lines 272-316): count every candidate
occurrence over the whole grid, divide by the cell count to get the weight
vector, then scan interior cells registering the four observed adjacency
rules per cell. -/
def generate_rules (g : Grid) : Option (List Rule × List ℚ) := do
  let counts := (positions g.h g.w).foldl
    (fun c p => bumpCounts c (g.seat p.1 p.2))
    (List.replicate g.num_possibilities 0)
  let weights : List ℚ := counts.map (fun v : ℕ => (v : ℚ) / ((g.w * g.h : ℕ) : ℚ))
  let rules ← (interiorPositions g).foldlM (ruleStep g) []
  return (rules, weights)

/-- One cell of the tile scan of `generate_tiles` (lines 341-359): find the
current tile among the already-seen tiles by (pixel) equality; if present the
cell gets that index, otherwise the cell gets a fresh id, the tile is appended
and `num_possibilities` is incremented. -/
def tileStep {T : Type} [DecidableEq T] (tileAt : ℕ → ℕ → T)
    (st : Grid × List T) (p : ℕ × ℕ) : Grid × List T :=
  let g := st.1
  let tiles := st.2
  let current := tileAt p.1 p.2
  match tiles.findIdx? (fun v => decide (v = current)) with
  | some v => ({ g with data := setSeat g.data p.1 p.2 (Seat.Collapsed v) }, tiles)
  | none =>
    ({ g with
        data := setSeat g.data p.1 p.2 (Seat.Collapsed tiles.length)
        num_possibilities := g.num_possibilities + 1 },
      tiles ++ [current])

/-- `generate_tiles` of `src/main.rs` (lines 324-362), with the image library
abstracted away: the divisibility checks and sub-image extraction belong to the
`image` crate, so the embedding starts from the post-division grid dimensions
`gw × gh` and a function `tileAt` giving the tile content at each grid cell
(tiles are compared by `DecidableEq`, matching the pixel-by-pixel equality of
the source).  The grid starts as `Grid::new(gw, gh, 1)` and every cell is
overwritten by the scan. -/
def generate_tiles {T : Type} [DecidableEq T] (gw gh : ℕ) (tileAt : ℕ → ℕ → T) :
    Grid × List T :=
  (positions gh gw).foldl (tileStep tileAt) (Grid.new gw gh 1, [])

/-! ### Helper lemmas about the state predicates -/

lemma seatContradicting_iff (s : Seat) : seatContradicting s = true ↔ s.card = 0 := by
  cases s <;> simp [seatContradicting, Seat.card]

lemma seatSettled_iff (s : Seat) : seatSettled s = true ↔ s.card = 1 := by
  cases s <;> simp [seatSettled, Seat.card]

/-- C8 (amended): `Seat::get_id` succeeds, returning the contained id, exactly
on the `Collapsed(id)` form; it fails on every `Uncertain` cell, including the
semantically equivalent singleton `Uncertain({id})` whose candidate-set size
is 1. -/
theorem claim8_amended (s : Seat) (i : ℕ) :
    (Seat.Collapsed i).get_id = some i ∧
    (Seat.Uncertain [i]).get_id = none ∧
    ((s.get_id).isSome ↔ ∃ v, s = Seat.Collapsed v) := by
  refine ⟨rfl, rfl, ?_⟩
  cases s <;> simp [Seat.get_id]

/-- C8 counterexample: the cell `Uncertain([5])` has candidate-set size 1, yet
`get_id` fails on it, contradicting the claim that `get_id` succeeds exactly
when the candidate-set size is 1 "for both the `Collapsed(id)` form and the
semantically equivalent `Uncertain({id})` form". -/
theorem claim8_singleton_uncertain_counterexample :
    (Seat.Uncertain [5]).card = 1 ∧ (Seat.Uncertain [5]).get_id = none := by
  exact ⟨rfl, rfl⟩

/-- C6: `shannon_entropy`, read over the reals with `log2 = Real.logb 2`,
returns `log2(Σ w_i) − (Σ w_i·log2 w_i) / (Σ w_i)` on an `Uncertain` cell,
exactly `0` on a `Collapsed` cell, and `0` on an `Uncertain` cell with a single
candidate of positive weight (so the value matches before and after lazy
finalization). -/
theorem claim6_entropy (ps : List ℕ) (w : List ℝ) (i j : ℕ)
    (h : 0 < w.getD i 0) :
    shannon_entropy (Real.logb 2) (Seat.Uncertain ps) w =
        Real.logb 2 ((ps.map (fun v => w.getD v 0)).sum) -
          ((ps.map (fun v => w.getD v 0 * Real.logb 2 (w.getD v 0))).sum) /
            ((ps.map (fun v => w.getD v 0)).sum) ∧
    shannon_entropy (Real.logb 2) (Seat.Collapsed j) w = 0 ∧
    shannon_entropy (Real.logb 2) (Seat.Uncertain [i]) w = 0 := by
  refine ⟨rfl, rfl, ?_⟩
  have hne : w.getD i 0 ≠ 0 := ne_of_gt h
  rw [List.getD_eq_getElem?_getD] at hne
  simp [shannon_entropy, mul_div_cancel_left₀ _ hne]

/-- C6 witness: concrete single-candidate cell with weight 1/2. -/
theorem claim6_entropy_witness :
    (0 : ℝ) < [(1 : ℝ) / 2].getD 0 0 ∧
    shannon_entropy (Real.logb 2) (Seat.Uncertain [0]) [(1 : ℝ) / 2] = 0 := by
  have h : (0 : ℝ) < [(1 : ℝ) / 2].getD 0 0 := by norm_num [List.getD_cons_zero]
  exact ⟨h, (claim6_entropy [0] [(1 : ℝ) / 2] 0 0 h).2.2⟩

/-- C9: `get_state` reports `Contradicting` whenever some cell has an empty
candidate set, `Collapsed` when every cell is `Collapsed` or `Uncertain` of
size exactly 1, `Uncollapsed` otherwise; and `Collapsed` is terminal: one
unfolding of `Grid::collapse` stops immediately, returning the grid. -/
theorem claim9_states (g : Grid) (rules : List Rule) (w : List ℚ)
    (log2 : ℚ → ℚ) (rs : ℕ → ℚ) (fuel : ℕ) :
    ((∃ s ∈ g.data.flatten, s.card = 0) → g.get_state = GridState.Contradicting) ∧
    ((∀ s ∈ g.data.flatten, s.card = 1) → g.get_state = GridState.Collapsed) ∧
    ((¬ ∃ s ∈ g.data.flatten, s.card = 0) → (¬ ∀ s ∈ g.data.flatten, s.card = 1) →
      g.get_state = GridState.Uncollapsed) ∧
    (g.get_state = GridState.Collapsed →
      g.collapse rules w log2 rs (fuel + 1) = some g) := by
  refine ⟨?_, ?_, ?_, ?_⟩
  · rintro ⟨s, hs, hc⟩
    have : g.data.flatten.any seatContradicting = true :=
      List.any_eq_true.mpr ⟨s, hs, (seatContradicting_iff s).mpr hc⟩
    simp [Grid.get_state, this]
  · intro hall
    have h1 : g.data.flatten.any seatContradicting = false := by
      rw [Bool.eq_false_iff]
      intro hany
      obtain ⟨s, hs, hc⟩ := List.any_eq_true.mp hany
      have := hall s hs
      rw [(seatContradicting_iff s).mp hc] at this
      exact absurd this (by norm_num)
    have h2 : g.data.flatten.all seatSettled = true :=
      List.all_eq_true.mpr fun s hs => (seatSettled_iff s).mpr (hall s hs)
    simp [Grid.get_state, h1, h2]
  · intro hne hnall
    have h1 : g.data.flatten.any seatContradicting = false := by
      rw [Bool.eq_false_iff]
      intro hany
      obtain ⟨s, hs, hc⟩ := List.any_eq_true.mp hany
      exact hne ⟨s, hs, (seatContradicting_iff s).mp hc⟩
    have h2 : g.data.flatten.all seatSettled = false := by
      rw [Bool.eq_false_iff]
      intro hall
      exact hnall fun s hs => (seatSettled_iff s).mp (List.all_eq_true.mp hall s hs)
    simp [Grid.get_state, h1, h2]
  · intro h
    simp [Grid.collapse, h]

/-- C9 witness: the three states on concrete grids, and termination of the
driver on a collapsed grid. -/
theorem claim9_states_witness :
    (Grid.mk [[Seat.Uncertain []]] 1 1 1).get_state = GridState.Contradicting ∧
    (Grid.mk [[Seat.Collapsed 0, Seat.Uncertain [1]]] 2 2 1).get_state = GridState.Collapsed ∧
    (Grid.mk [[Seat.Uncertain [0, 1]]] 2 1 1).get_state = GridState.Uncollapsed ∧
    (Grid.mk [[Seat.Collapsed 0, Seat.Uncertain [1]]] 2 2 1).collapse [] []
        (fun _ => 0) (fun _ => 0) 1 =
      some (Grid.mk [[Seat.Collapsed 0, Seat.Uncertain [1]]] 2 2 1) := by
  have h1 := (claim9_states (Grid.mk [[Seat.Uncertain []]] 1 1 1) [] []
    (fun _ => 0) (fun _ => 0) 0).1 (by decide)
  have h2 := (claim9_states (Grid.mk [[Seat.Collapsed 0, Seat.Uncertain [1]]] 2 2 1) [] []
    (fun _ => 0) (fun _ => 0) 0).2.1 (by decide)
  have h3 := (claim9_states (Grid.mk [[Seat.Uncertain [0, 1]]] 2 1 1) [] []
    (fun _ => 0) (fun _ => 0) 0).2.2.1 (by decide) (by decide)
  have h4 := (claim9_states (Grid.mk [[Seat.Collapsed 0, Seat.Uncertain [1]]] 2 2 1) [] []
    (fun _ => 0) (fun _ => 0) 0).2.2.2 h2
  exact ⟨h1, h2, h3, h4⟩

/-- C1 (amended): from a `Contradicting` state one driver step replaces every
cell by the fresh `Seat::new(num_possibilities)` candidate set and continues;
pre-seeded cells are not re-applied by the reset. -/
theorem claim1_reset_amended (g : Grid) (rules : List Rule) (w : List ℚ)
    (log2 : ℚ → ℚ) (rs : ℕ → ℚ) (fuel : ℕ)
    (h : g.get_state = GridState.Contradicting) :
    g.collapse rules w log2 rs (fuel + 1) = g.reset.collapse rules w log2 rs fuel ∧
    ∀ p : ℕ × ℕ, p.1 < g.h → p.2 < g.w →
      seatAt g.reset.data p = Seat.new g.num_possibilities := by
  constructor
  · simp [Grid.collapse, h]
  · intro p h1 h2
    simp [Grid.reset, seatAt, List.getD_eq_getElem?_getD, List.getElem?_replicate, h1, h2]

/-- C1 witness: a concrete contradicting grid seeded at `(0,0)`. -/
theorem claim1_reset_amended_witness :
    (Grid.mk [[Seat.Collapsed 3, Seat.Uncertain []]] 2 2 1).get_state = GridState.Contradicting ∧
    (Grid.mk [[Seat.Collapsed 3, Seat.Uncertain []]] 2 2 1).collapse [] []
        (fun _ => 0) (fun _ => 0) 1 =
      (Grid.mk [[Seat.Collapsed 3, Seat.Uncertain []]] 2 2 1).reset.collapse [] []
        (fun _ => 0) (fun _ => 0) 0 ∧
    seatAt (Grid.mk [[Seat.Collapsed 3, Seat.Uncertain []]] 2 2 1).reset.data (0, 0) =
      Seat.new 2 := by
  have h : (Grid.mk [[Seat.Collapsed 3, Seat.Uncertain []]] 2 2 1).get_state =
      GridState.Contradicting := by decide
  have hm := claim1_reset_amended (Grid.mk [[Seat.Collapsed 3, Seat.Uncertain []]] 2 2 1)
    [] [] (fun _ => 0) (fun _ => 0) 0 h
  exact ⟨h, hm.1, hm.2 (0, 0) (by decide) (by decide)⟩

/-- C1 counterexample: a grid whose caller fixed `(0,0)` to `Collapsed 3`
before solving and which is now contradicting; after the `Contradicting` arm's
reset, the seeded cell is back to the all-uncertain set `[0, 1]`, not to
`Collapsed 3` — the pre-seeded cell is not re-applied. -/
theorem claim1_seed_lost_counterexample :
    (Grid.mk [[Seat.Collapsed 3, Seat.Uncertain []]] 2 2 1).get_state = GridState.Contradicting ∧
    seatAt (Grid.mk [[Seat.Collapsed 3, Seat.Uncertain []]] 2 2 1).data (0, 0) =
      Seat.Collapsed 3 ∧
    seatAt (Grid.mk [[Seat.Collapsed 3, Seat.Uncertain []]] 2 2 1).reset.data (0, 0) =
      Seat.Uncertain [0, 1] := by
  decide

/-! ### Pointwise lemmas about `seatAt` and `setSeat` -/

lemma seatAt_setSeat_ne (d : List (List Seat)) (y x : ℕ) (s : Seat) (q : ℕ × ℕ)
    (h : q ≠ (y, x)) : seatAt (setSeat d y x s) q = seatAt d q := by
  obtain ⟨y1, x1⟩ := q
  by_cases hy : y1 = y
  · subst hy
    have hx : x1 ≠ x := fun hx => h (by rw [hx])
    simp only [seatAt, setSeat, List.getD_eq_getElem?_getD, List.getElem?_set]
    by_cases hlen : y1 < d.length
    · simp [hlen, List.getElem?_set_ne (Ne.symm hx)]
    · simp [hlen, List.getElem?_eq_none (le_of_not_lt hlen)]
  · simp [seatAt, setSeat, List.getD_eq_getElem?_getD,
      List.getElem?_set_ne (fun hc => hy hc.symm)]

lemma seatAt_setSeat_self (d : List (List Seat)) (y x : ℕ) (s : Seat)
    (hy : y < d.length) (hx : x < (d.getD y []).length) :
    seatAt (setSeat d y x s) (y, x) = s := by
  have hx2 : x < (d[y]?.getD []).length := by
    rwa [List.getD_eq_getElem?_getD] at hx
  simp [seatAt, setSeat, List.getD_eq_getElem?_getD, List.getElem?_set_self hy,
    List.getElem?_set_self hx2]

lemma seatAt_inbounds (d : List (List Seat)) (p : ℕ × ℕ) (v : List ℕ)
    (hv : seatAt d p = Seat.Uncertain v) (hne : v ≠ []) :
    p.1 < d.length ∧ p.2 < (d.getD p.1 []).length := by
  constructor
  · by_contra hy
    push_neg at hy
    rw [seatAt, List.getD_eq_default _ _ hy] at hv
    simp [List.getD] at hv
    exact hne hv
  · by_contra hx
    push_neg at hx
    rw [seatAt, List.getD_eq_default _ _ hx] at hv
    exact hne (Seat.Uncertain.inj hv).symm

/-! ### The minimum-selection fold, extracted from the entropy scan -/

/-- The pure running-minimum fold underlying the entropy scan: keep the
strictly smaller entry, so the first entry attaining the minimum wins. -/
def selMin (init : ℕ × ℕ × ℚ) (l : List (ℕ × ℕ × ℚ)) : ℕ × ℕ × ℚ :=
  l.foldl (fun m c => if c.2.2 < m.2.2 then c else m) init

/-- Complete characterization of `selMin`: either no entry beats the initial
value and it is returned, or the result is the first entry of the list
attaining the minimum (strictly below the initial value and everything before
it, weakly below everything). -/
lemma selMin_spec (l : List (ℕ × ℕ × ℚ)) (init : ℕ × ℕ × ℚ) :
    (selMin init l = init ∧ ∀ c ∈ l, init.2.2 ≤ c.2.2) ∨
    (∃ l₁ l₂, l = l₁ ++ selMin init l :: l₂ ∧
      (∀ b ∈ init :: l₁, (selMin init l).2.2 < b.2.2) ∧
      ∀ c ∈ l, (selMin init l).2.2 ≤ c.2.2) := by
  induction l generalizing init with
  | nil => exact Or.inl ⟨rfl, by simp⟩
  | cons c t ih =>
    have hsel : selMin init (c :: t) = selMin (if c.2.2 < init.2.2 then c else init) t := rfl
    by_cases hc : c.2.2 < init.2.2
    · rw [hsel, if_pos hc]
      rcases ih c with ⟨heq, hall⟩ | ⟨l₁, l₂, hsplit, hlt, hall⟩
      · right
        refine ⟨[], t, by simp [heq], ?_, ?_⟩
        · intro b hb
          rcases List.mem_cons.mp hb with rfl | hb
          · rw [heq]; exact hc
          · simp at hb
        · intro a ha
          rcases List.mem_cons.mp ha with rfl | ha
          · simp [heq]
          · rw [heq]; exact hall a ha
      · right
        refine ⟨c :: l₁, l₂, by rw [List.cons_append, ← hsplit], ?_, ?_⟩
        · intro b hb
          rcases List.mem_cons.mp hb with rfl | hb2
          · exact lt_trans (hlt c (List.mem_cons_self c l₁)) hc
          · exact hlt b hb2
        · intro a ha
          rcases List.mem_cons.mp ha with rfl | ha2
          · exact le_of_lt (hlt a (List.mem_cons_self a l₁))
          · exact hall a ha2
    · rw [hsel, if_neg hc]
      push_neg at hc
      rcases ih init with ⟨heq, hall⟩ | ⟨l₁, l₂, hsplit, hlt, hall⟩
      · left
        refine ⟨heq, ?_⟩
        intro a ha
        rcases List.mem_cons.mp ha with rfl | ha2
        · exact hc
        · exact hall a ha2
      · right
        have hinit : (selMin init t).2.2 < init.2.2 := hlt init (List.mem_cons_self init l₁)
        refine ⟨c :: l₁, l₂, by rw [List.cons_append, ← hsplit], ?_, ?_⟩
        · intro b hb
          rcases List.mem_cons.mp hb with rfl | hb2
          · exact hinit
          · rcases List.mem_cons.mp hb2 with rfl | hb3
            · exact lt_of_lt_of_le hinit hc
            · exact hlt b (List.mem_cons_of_mem init hb3)
        · intro a ha
          rcases List.mem_cons.mp ha with rfl | ha2
          · exact le_trans (le_of_lt hinit) hc
          · exact hall a ha2

/-! ### Decoupling the entropy scan into data effect and minimum selection -/

/-- The entry the entropy scan contributes for one cell: skipped (`continue`)
for a `Collapsed` cell, otherwise the entropy of the lazily finalized cell. -/
def scanEntry (log2 : ℚ → ℚ) (w : List ℚ) (d : List (List Seat)) (p : ℕ × ℕ) :
    Option (ℕ × ℕ × ℚ) :=
  match seatAt d p with
  | .Collapsed _ => none
  | .Uncertain v =>
    some (p.1, p.2, shannon_entropy log2 (finalizeSeat (Seat.Uncertain v)) w)

/-- All entries the scan compares, in row-major order. -/
def scanEntries (g : Grid) (log2 : ℚ → ℚ) (w : List ℚ) : List (ℕ × ℕ × ℚ) :=
  (positions g.h g.w).filterMap (scanEntry log2 w g.data)

lemma scan_fold_spec (log2 : ℚ → ℚ) (w : List ℚ) (ps : List (ℕ × ℕ)) :
    ∀ (d : List (List Seat)) (m : ℕ × ℕ × ℚ), ps.Nodup →
      (ps.foldl (scanCell log2 w) (d, m)).2 = selMin m (ps.filterMap (scanEntry log2 w d)) ∧
      ∀ q : ℕ × ℕ, seatAt (ps.foldl (scanCell log2 w) (d, m)).1 q =
        if q ∈ ps then finalizeSeat (seatAt d q) else seatAt d q := by
  induction ps with
  | nil =>
    intro d m _
    exact ⟨rfl, fun q => by simp⟩
  | cons p t ih =>
    intro d m hnd
    obtain ⟨hp, ht⟩ := List.nodup_cons.mp hnd
    cases hseat : seatAt d p with
    | Collapsed c =>
      have hstep : scanCell log2 w (d, m) p = (d, m) := by
        simp [scanCell, hseat]
      have hfm : (p :: t).foldl (scanCell log2 w) (d, m) = t.foldl (scanCell log2 w) (d, m) := by
        rw [List.foldl_cons, hstep]
      have hent : (p :: t).filterMap (scanEntry log2 w d) = t.filterMap (scanEntry log2 w d) := by
        simp [List.filterMap_cons, scanEntry, hseat]
      obtain ⟨h1, h2⟩ := ih d m ht
      refine ⟨by rw [hfm, hent, h1], ?_⟩
      intro q
      rw [hfm]
      by_cases hq : q ∈ p :: t
      · rw [if_pos hq]
        rcases List.mem_cons.mp hq with rfl | hqt
        · rw [h2 q, if_neg hp, hseat]; rfl
        · rw [h2 q, if_pos hqt]
      · rw [if_neg hq]
        have hqt : q ∉ t := fun hmem => hq (List.mem_cons_of_mem p hmem)
        rw [h2 q, if_neg hqt]
    | Uncertain v =>
      have hpq : p = (p.1, p.2) := rfl
      set d1 := if v.length = 1 then setSeat d p.1 p.2 (Seat.Collapsed (v.getD 0 0)) else d
        with hd1
      have hd1p : seatAt d1 p = finalizeSeat (Seat.Uncertain v) := by
        by_cases hv : v.length = 1
        · have hvne : v ≠ [] := by
            intro hnil
            rw [hnil] at hv
            simp at hv
          obtain ⟨hy, hx⟩ := seatAt_inbounds d p v hseat hvne
          rw [hd1, if_pos hv]
          have hset := seatAt_setSeat_self d p.1 p.2 (Seat.Collapsed (v.getD 0 0)) hy hx
          rw [← hpq] at hset
          rw [hset, finalizeSeat, if_pos hv]
        · rw [hd1, if_neg hv, hseat, finalizeSeat, if_neg hv]
      have hd1q : ∀ q : ℕ × ℕ, q ≠ p → seatAt d1 q = seatAt d q := by
        intro q hq
        by_cases hv : v.length = 1
        · rw [hd1, if_pos hv]
          exact seatAt_setSeat_ne d p.1 p.2 _ q (by rw [← hpq]; exact hq)
        · rw [hd1, if_neg hv]
      set e := shannon_entropy log2 (seatAt d1 p) w with he
      have hstep : scanCell log2 w (d, m) p =
          (d1, if e < m.2.2 then (p.1, p.2, e) else m) := by
        rw [scanCell]
        simp only [hseat, ← hd1, ← he]
        split <;> rfl
      have hfm : (p :: t).foldl (scanCell log2 w) (d, m) =
          t.foldl (scanCell log2 w) (d1, if e < m.2.2 then (p.1, p.2, e) else m) := by
        rw [List.foldl_cons, hstep]
      have hent : (p :: t).filterMap (scanEntry log2 w d) =
          (p.1, p.2, e) :: t.filterMap (scanEntry log2 w d) := by
        simp only [List.filterMap_cons, scanEntry, hseat]
        rw [he, hd1p]
      have hentt : t.filterMap (scanEntry log2 w d1) = t.filterMap (scanEntry log2 w d) := by
        refine List.filterMap_congr ?_
        intro q hq
        have hqp : q ≠ p := fun hc => hp (hc ▸ hq)
        rw [scanEntry, scanEntry, hd1q q hqp]
      obtain ⟨h1, h2⟩ := ih d1 (if e < m.2.2 then (p.1, p.2, e) else m) ht
      constructor
      · rw [hfm, h1, hentt, hent]
        rfl
      · intro q
        rw [hfm]
        by_cases hq : q ∈ p :: t
        · rw [if_pos hq]
          rcases List.mem_cons.mp hq with rfl | hqt
          · rw [h2 q, if_neg hp, hd1p, hseat]
          · rw [h2 q, if_pos hqt, hd1q q (fun hc => hp (hc ▸ hqt))]
        · rw [if_neg hq]
          have hqt : q ∉ t := fun hmem => hq (List.mem_cons_of_mem p hmem)
          rw [h2 q, if_neg hqt, hd1q q (fun hc => hq (hc ▸ List.mem_cons_self p t))]

lemma nodup_positions (h w : ℕ) : (positions h w).Nodup :=
  List.Nodup.product (List.nodup_range _) (List.nodup_range _)

/-- The entropy scan, decoupled: its data component finalizes every visited
cell in place and touches nothing else, and its minimum component is the
strict-minimum fold over the entries of the non-`Collapsed` cells. -/
lemma entropyScan_spec (g : Grid) (log2 : ℚ → ℚ) (w : List ℚ) :
    (entropyScan g log2 w).2 = selMin (0, 0, f32MAX) (scanEntries g log2 w) ∧
    ∀ q : ℕ × ℕ, seatAt (entropyScan g log2 w).1 q =
      if q ∈ positions g.h g.w then finalizeSeat (seatAt g.data q) else seatAt g.data q :=
  scan_fold_spec log2 w (positions g.h g.w) g.data (0, 0, f32MAX) (nodup_positions g.h g.w)

/-- C3 (amended): the cell-selection scan of `Grid::step` proceeds in
row-major order; cells that were already `Collapsed` are skipped (they
contribute no entry); every visited cell is lazily finalized in place
(`Uncertain` with one candidate becomes `Collapsed`, everything else is
untouched); the selection keeps the minimum-entropy entry with strict `<`, so
ties are broken by first-encountered row-major position — but, contrary to the
original claim, a cell just converted by lazy finalization does participate in
the comparison (with the entropy of its `Collapsed` form) and can be selected
as the cell to decide. -/
theorem claim3_scan_amended (g : Grid) (log2 : ℚ → ℚ) (w : List ℚ) :
    (∀ q : ℕ × ℕ, seatAt (entropyScan g log2 w).1 q =
      if q ∈ positions g.h g.w then finalizeSeat (seatAt g.data q) else seatAt g.data q) ∧
    (((entropyScan g log2 w).2 = (0, 0, f32MAX) ∧
        ∀ c ∈ scanEntries g log2 w, f32MAX ≤ c.2.2) ∨
      (∃ l₁ l₂, scanEntries g log2 w = l₁ ++ (entropyScan g log2 w).2 :: l₂ ∧
        (entropyScan g log2 w).2.2.2 < f32MAX ∧
        (∀ b ∈ l₁, (entropyScan g log2 w).2.2.2 < b.2.2) ∧
        ∀ c ∈ scanEntries g log2 w, (entropyScan g log2 w).2.2.2 ≤ c.2.2)) := by
  obtain ⟨h1, h2⟩ := entropyScan_spec g log2 w
  refine ⟨h2, ?_⟩
  rcases selMin_spec (scanEntries g log2 w) (0, 0, f32MAX) with ⟨heq, hall⟩ |
    ⟨l₁, l₂, hsplit, hlt, hall⟩
  · exact Or.inl ⟨by rw [h1, heq], fun c hc => hall c hc⟩
  · refine Or.inr ⟨l₁, l₂, by rw [h1]; exact hsplit, ?_, ?_, ?_⟩
    · rw [h1]; exact hlt (0, 0, f32MAX) (List.mem_cons_self _ _)
    · intro b hb; rw [h1]; exact hlt b (List.mem_cons_of_mem _ hb)
    · intro c hc; rw [h1]; exact hall c hc

/-- C3 witness: on a one-cell grid holding a collapsed cell, the first
conjunct of the amended scan theorem evaluates concretely. -/
theorem claim3_scan_amended_witness :
    seatAt (entropyScan (Grid.mk [[Seat.Collapsed 0]] 1 1 1) (fun _ => 0) []).1 (0, 0) =
      finalizeSeat (seatAt (Grid.mk [[Seat.Collapsed 0]] 1 1 1).data (0, 0)) := by
  have h := (claim3_scan_amended (Grid.mk [[Seat.Collapsed 0]] 1 1 1) (fun _ => 0) []).1 (0, 0)
  rw [if_pos (by decide : ((0 : ℕ), (0 : ℕ)) ∈ positions (Grid.mk [[Seat.Collapsed 0]] 1 1 1).h
    (Grid.mk [[Seat.Collapsed 0]] 1 1 1).w)] at h
  exact h

/-- C3 counterexample: in a `1 × 2` grid whose first cell is `Uncertain [0]`,
the scan converts that cell to `Collapsed 0` (lazy finalization) and then
selects it — `min_entropy` ends at `(0, 0, 0)` and the cell at `(0, 0)` of the
scanned data is `Collapsed`, contradicting "never selects a Collapsed cell
(including cells just converted by lazy finalization)". -/
theorem claim3_selects_converted_counterexample :
    (entropyScan (Grid.mk [[Seat.Uncertain [0], Seat.Uncertain [0, 1]]] 2 2 1)
        (fun _ => 0) []).2 = (0, 0, 0) ∧
    seatAt (entropyScan (Grid.mk [[Seat.Uncertain [0], Seat.Uncertain [0, 1]]] 2 2 1)
        (fun _ => 0) []).1 (0, 0) = Seat.Collapsed 0 := by
  have hp : positions 1 2 = [(0, 0), (0, 1)] := by decide
  constructor
  · norm_num [entropyScan, hp, scanCell, seatAt, setSeat, shannon_entropy, f32MAX]
  · norm_num [entropyScan, hp, scanCell, seatAt, setSeat, shannon_entropy, f32MAX]

/-- C2 (amended): in a Propagator step where no present neighbor contributes
any rule-derived possibility (every `possibilities` query returns `None`, which
the caller skips), the collection is empty and `Grid::step` panics on
`pop().unwrap()` — modelled as `step` returning `none` — instead of committing
the chosen cell to the explicitly empty candidate set. -/
theorem claim2_amended (g : Grid) (rules : List Rule) (w : List ℚ) (log2 : ℚ → ℚ)
    (r : ℚ)
    (h : neighborColl (entropyScan g log2 w).1 g.h g.w (entropyScan g log2 w).2.1
      (entropyScan g log2 w).2.2.1 rules = []) :
    g.step rules w log2 r = none := by
  simp [Grid.step, h, intersectColl]

/-- C2 witness: a `1 × 2` grid with an empty rule set; the selected cell
`(0,0)` has one existing neighbor and its possibility query is empty. -/
theorem claim2_amended_witness :
    (Grid.mk [[Seat.Uncertain [0, 1], Seat.Collapsed 0]] 2 2 1).step [] []
      (fun _ => 0) 0 = none := by
  have hp : positions 1 2 = [(0, 0), (0, 1)] := by decide
  have hscan : entropyScan (Grid.mk [[Seat.Uncertain [0, 1], Seat.Collapsed 0]] 2 2 1)
      (fun _ => 0) [] = ([[Seat.Uncertain [0, 1], Seat.Collapsed 0]], (0, 0, 0)) := by
    norm_num [entropyScan, hp, scanCell, seatAt, shannon_entropy, f32MAX]
  refine claim2_amended _ [] [] (fun _ => 0) 0 ?_
  rw [hscan]
  decide

/-- C2 counterexample: on the same concrete grid the step evaluates to `none`
(the `unwrap` panic), not to a grid whose chosen cell is the explicitly empty
candidate set; the second conjunct shows the scenario of the claim holds (the
neighbor-constraint collection of the selected cell is empty even though the
cell has an existing neighbor). -/
theorem claim2_all_empty_panics_counterexample :
    (Grid.mk [[Seat.Uncertain [0, 1], Seat.Collapsed 0]] 2 2 1).step [] []
      (fun _ => 0) 0 = none ∧
    neighborColl (entropyScan (Grid.mk [[Seat.Uncertain [0, 1], Seat.Collapsed 0]] 2 2 1)
      (fun _ => 0) []).1 1 2 0 0 [] = [] := by
  have hp : positions 1 2 = [(0, 0), (0, 1)] := by decide
  have hscan : entropyScan (Grid.mk [[Seat.Uncertain [0, 1], Seat.Collapsed 0]] 2 2 1)
      (fun _ => 0) [] = ([[Seat.Uncertain [0, 1], Seat.Collapsed 0]], (0, 0, 0)) := by
    norm_num [entropyScan, hp, scanCell, seatAt, shannon_entropy, f32MAX]
  constructor
  · simp only [Grid.step, hscan]
    decide
  · rw [hscan]
    decide

/-- C7 (amended): a successful `Grid::step` leaves the grid dimensions and
`num_possibilities` unchanged and writes exactly one chosen cell, except that
the entropy scan additionally finalizes singleton `Uncertain` cells in place:
every cell other than the chosen one is either unchanged or was
`Uncertain([i])` and became `Collapsed(i)`.  (The `rules` and `weights` inputs
are read-only by construction in the embedding, mirroring the `&` borrows of
the source.) -/
theorem claim7_frame_amended (g : Grid) (rules : List Rule) (w : List ℚ)
    (log2 : ℚ → ℚ) (r : ℚ) (g' : Grid)
    (hstep : g.step rules w log2 r = some g') :
    g'.num_possibilities = g.num_possibilities ∧ g'.w = g.w ∧ g'.h = g.h ∧
    ∀ q : ℕ × ℕ, q ≠ ((entropyScan g log2 w).2.1, (entropyScan g log2 w).2.2.1) →
      seatAt g'.data q = seatAt g.data q ∨
      ∃ i, seatAt g.data q = Seat.Uncertain [i] ∧ seatAt g'.data q = Seat.Collapsed i := by
  simp only [Grid.step] at hstep
  split at hstep
  · exact absurd hstep (by simp)
  · rename_i ps hic
    rw [Option.some.injEq] at hstep
    have hnum : g'.num_possibilities = g.num_possibilities := by rw [← hstep]
    have hw : g'.w = g.w := by rw [← hstep]
    have hh : g'.h = g.h := by rw [← hstep]
    have hdata : g'.data = setSeat (entropyScan g log2 w).1 (entropyScan g log2 w).2.1
        (entropyScan g log2 w).2.2.1
        (match sampleIdx (sortByWeight ps w) w r with
          | some v => Seat.Collapsed v
          | none => Seat.Uncertain []) := by rw [← hstep]
    refine ⟨hnum, hw, hh, ?_⟩
    intro q hq
    rw [hdata, seatAt_setSeat_ne _ _ _ _ q hq]
    have hspec := (entropyScan_spec g log2 w).2 q
    by_cases hmem : q ∈ positions g.h g.w
    · rw [if_pos hmem] at hspec
      cases hseat : seatAt g.data q with
      | Collapsed i =>
        left
        rw [hspec, hseat]
        rfl
      | Uncertain v =>
        by_cases hv : v.length = 1
        · obtain ⟨a, rfl⟩ := List.length_eq_one.mp hv
          right
          exact ⟨a, rfl, by rw [hspec, hseat]; rfl⟩
        · left
          rw [hspec, hseat, finalizeSeat, if_neg hv]
    · rw [if_neg hmem] at hspec
      left
      exact hspec

/-- C7 witness: a concrete successful step, with the frame conclusion
instantiated. -/
theorem claim7_frame_amended_witness :
    (Grid.mk [[Seat.Uncertain [0], Seat.Uncertain [0], Seat.Uncertain [0, 1]]] 2 3 1).step
        [Rule.mk 0 0 Direction.RIGHT] [] (fun _ => 0) 0 =
      some (Grid.mk [[Seat.Collapsed 0, Seat.Collapsed 0, Seat.Uncertain [0, 1]]] 2 3 1) ∧
    (Grid.mk [[Seat.Collapsed 0, Seat.Collapsed 0, Seat.Uncertain [0, 1]]] 2 3 1).num_possibilities =
      (Grid.mk [[Seat.Uncertain [0], Seat.Uncertain [0], Seat.Uncertain [0, 1]]] 2 3 1).num_possibilities := by
  have hp : positions 1 3 = [(0, 0), (0, 1), (0, 2)] := by decide
  have hscan : entropyScan
      (Grid.mk [[Seat.Uncertain [0], Seat.Uncertain [0], Seat.Uncertain [0, 1]]] 2 3 1)
      (fun _ => 0) [] =
      ([[Seat.Collapsed 0, Seat.Collapsed 0, Seat.Uncertain [0, 1]]], (0, 0, 0)) := by
    norm_num [entropyScan, hp, scanCell, seatAt, setSeat, shannon_entropy, f32MAX]
  have hstep : (Grid.mk [[Seat.Uncertain [0], Seat.Uncertain [0], Seat.Uncertain [0, 1]]] 2 3 1).step
      [Rule.mk 0 0 Direction.RIGHT] [] (fun _ => 0) 0 =
      some (Grid.mk [[Seat.Collapsed 0, Seat.Collapsed 0, Seat.Uncertain [0, 1]]] 2 3 1) := by
    simp only [Grid.step, hscan]
    norm_num [neighborColl, possibilities, ruleLookup, pushNew, pushSome, intersectColl,
      sortByWeight, sampleIdx, seatAt, setSeat, List.mergeSort_singleton, List.find?,
      List.getLast?]
  exact ⟨hstep, (claim7_frame_amended _ [Rule.mk 0 0 Direction.RIGHT] [] (fun _ => 0) 0 _ hstep).1⟩

/-- C7 counterexample: in the same concrete step, two distinct cells change —
the chosen cell `(0,0)` and the lazily finalized cell `(0,1)` — contradicting
"every cell other than that one cell is unchanged by the step". -/
theorem claim7_two_writes_counterexample :
    (Grid.mk [[Seat.Uncertain [0], Seat.Uncertain [0], Seat.Uncertain [0, 1]]] 2 3 1).step
        [Rule.mk 0 0 Direction.RIGHT] [] (fun _ => 0) 0 =
      some (Grid.mk [[Seat.Collapsed 0, Seat.Collapsed 0, Seat.Uncertain [0, 1]]] 2 3 1) ∧
    seatAt [[Seat.Collapsed 0, Seat.Collapsed 0, Seat.Uncertain [0, 1]]] (0, 0) ≠
      seatAt [[Seat.Uncertain [0], Seat.Uncertain [0], Seat.Uncertain [0, 1]]] (0, 0) ∧
    seatAt [[Seat.Collapsed 0, Seat.Collapsed 0, Seat.Uncertain [0, 1]]] (0, 1) ≠
      seatAt [[Seat.Uncertain [0], Seat.Uncertain [0], Seat.Uncertain [0, 1]]] (0, 1) ∧
    ((0 : ℕ), (0 : ℕ)) ≠ ((0 : ℕ), (1 : ℕ)) := by
  have hp : positions 1 3 = [(0, 0), (0, 1), (0, 2)] := by decide
  have hscan : entropyScan
      (Grid.mk [[Seat.Uncertain [0], Seat.Uncertain [0], Seat.Uncertain [0, 1]]] 2 3 1)
      (fun _ => 0) [] =
      ([[Seat.Collapsed 0, Seat.Collapsed 0, Seat.Uncertain [0, 1]]], (0, 0, 0)) := by
    norm_num [entropyScan, hp, scanCell, seatAt, setSeat, shannon_entropy, f32MAX]
  refine ⟨?_, by decide, by decide, by decide⟩
  simp only [Grid.step, hscan]
  norm_num [neighborColl, possibilities, ruleLookup, pushNew, pushSome, intersectColl,
    sortByWeight, sampleIdx, seatAt, setSeat, List.mergeSort_singleton, List.find?,
    List.getLast?]

/-! ### Helper lemmas for weighted sampling -/

lemma find?_eq_some_split {α : Type} (p : α → Bool) :
    ∀ (l : List α) (a : α), l.find? p = some a →
      ∃ l₁ l₂, l = l₁ ++ a :: l₂ ∧ p a = true ∧ ∀ b ∈ l₁, p b = false := by
  intro l
  induction l with
  | nil => intro a h; simp at h
  | cons c t ih =>
    intro a h
    cases hpc : p c with
    | true =>
      rw [List.find?_cons, hpc] at h
      rw [Option.some.injEq] at h
      subst h
      exact ⟨[], t, rfl, hpc, by simp⟩
    | false =>
      rw [List.find?_cons, hpc] at h
      obtain ⟨l₁, l₂, hsplit, hpa, hall⟩ := ih a h
      refine ⟨c :: l₁, l₂, by rw [List.cons_append, hsplit], hpa, ?_⟩
      intro b hb
      rcases List.mem_cons.mp hb with rfl | hb2
      · exact hpc
      · exact hall b hb2

lemma sortByWeight_sorted (ps : List ℕ) (w : List ℚ) :
    (sortByWeight ps w).Pairwise (fun a b => w.getD a 0 ≤ w.getD b 0) := by
  rw [sortByWeight]
  refine (List.sorted_mergeSort ?_ ?_ ps).imp ?_
  · intro a b c hab hbc
    rw [decide_eq_true_iff] at hab hbc ⊢
    exact le_trans hab hbc
  · intro a b
    rw [Bool.or_eq_true, decide_eq_true_iff, decide_eq_true_iff]
    exact le_total _ _
  · intro a b h
    exact of_decide_eq_true h

lemma sortByWeight_perm (ps : List ℕ) (w : List ℚ) : (sortByWeight ps w).Perm ps :=
  List.mergeSort_perm ps _

lemma pairwise_le_getLast {α : Type} (f : α → ℚ) :
    ∀ (l : List α) (h : l ≠ []), l.Pairwise (fun a b => f a ≤ f b) →
      ∀ b ∈ l, f b ≤ f (l.getLast h) := by
  intro l
  induction l with
  | nil => intro h; exact absurd rfl h
  | cons c t ih =>
    intro h hpw b hb
    obtain ⟨hhead, htail⟩ := List.pairwise_cons.mp hpw
    by_cases htne : t = []
    · subst htne
      have hbc : b = c := by simpa using hb
      subst hbc
      rw [List.getLast_singleton]
    · rw [List.getLast_cons htne]
      rcases List.mem_cons.mp hb with rfl | hb2
      · exact hhead _ (List.getLast_mem htne)
      · exact ih htne htail b hb2

/-- C5: in every Propagator step whose intersected candidate set is non-empty,
the candidates are stably sorted ascending by weight, the first candidate in
that order whose weight strictly exceeds the injected random draw `r` is
selected, the last (maximum-weight) candidate is selected when none exceeds
`r`, and the chosen cell is committed as `Collapsed` with the sampled id. -/
theorem claim5_weighted_sampling (g : Grid) (rules : List Rule) (w : List ℚ)
    (log2 : ℚ → ℚ) (r : ℚ) (d : List (List Seat)) (y x : ℕ) (e : ℚ) (ps : List ℕ)
    (hr0 : 0 ≤ r) (hr1 : r < 1)
    (hscan : entropyScan g log2 w = (d, (y, x, e)))
    (hps : intersectColl (neighborColl d g.h g.w y x rules) = some ps)
    (hne : ps ≠ []) :
    ∃ c, sampleIdx (sortByWeight ps w) w r = some c ∧
      g.step rules w log2 r =
        some { g with data := setSeat d y x (Seat.Collapsed c) } ∧
      (sortByWeight ps w).Perm ps ∧
      (sortByWeight ps w).Pairwise (fun a b => w.getD a 0 ≤ w.getD b 0) ∧
      ((∃ l₁ l₂, sortByWeight ps w = l₁ ++ c :: l₂ ∧ r < w.getD c 0 ∧
          ∀ b ∈ l₁, w.getD b 0 ≤ r) ∨
        ((∀ b ∈ ps, w.getD b 0 ≤ r) ∧ (sortByWeight ps w).getLast? = some c ∧
          ∀ b ∈ ps, w.getD b 0 ≤ w.getD c 0)) := by
  have hstep : ∀ c, sampleIdx (sortByWeight ps w) w r = some c →
      g.step rules w log2 r =
        some { g with data := setSeat d y x (Seat.Collapsed c) } := by
    intro c hs
    simp only [Grid.step, hscan, hps, hs]
  have hsne : sortByWeight ps w ≠ [] := by
    intro hnil
    apply hne
    have hlen : (sortByWeight ps w).length = ps.length := by
      rw [sortByWeight]
      exact List.length_mergeSort ps
    rw [hnil] at hlen
    exact List.length_eq_zero.mp hlen.symm
  cases hf : (sortByWeight ps w).find? (fun v => decide (r < w.getD v 0)) with
  | some c =>
    have hsample : sampleIdx (sortByWeight ps w) w r = some c := by
      simp only [sampleIdx]
      rw [hf]
    obtain ⟨l₁, l₂, hsplit, hpc, hall⟩ := find?_eq_some_split _ _ _ hf
    refine ⟨c, hsample, hstep c hsample, sortByWeight_perm ps w,
      sortByWeight_sorted ps w, Or.inl ⟨l₁, l₂, hsplit, of_decide_eq_true hpc, ?_⟩⟩
    intro b hb
    have hfb := hall b hb
    rw [decide_eq_false_iff_not] at hfb
    exact le_of_not_lt hfb
  | none =>
    have hlast : (sortByWeight ps w).getLast? = some ((sortByWeight ps w).getLast hsne) :=
      List.getLast?_eq_getLast _ hsne
    have hsample : sampleIdx (sortByWeight ps w) w r =
        some ((sortByWeight ps w).getLast hsne) := by
      simp only [sampleIdx]
      rw [hf]
      exact hlast
    have hnone : ∀ b ∈ sortByWeight ps w, w.getD b 0 ≤ r := by
      intro b hb
      have := List.find?_eq_none.mp hf b hb
      rw [decide_eq_true_iff] at this
      exact le_of_not_lt this
    refine ⟨(sortByWeight ps w).getLast hsne, hsample, hstep _ hsample,
      sortByWeight_perm ps w, sortByWeight_sorted ps w, Or.inr ⟨?_, hlast, ?_⟩⟩
    · intro b hb
      exact hnone b ((sortByWeight_perm ps w).mem_iff.mpr hb)
    · intro b hb
      exact pairwise_le_getLast (fun v => w.getD v 0) (sortByWeight ps w) hsne
        (sortByWeight_sorted ps w) b ((sortByWeight_perm ps w).mem_iff.mpr hb)

/-- C5 witness: a concrete `1 × 2` grid with one collapsed neighbor and one
rule; the fallback branch selects the single candidate and commits it. -/
theorem claim5_weighted_sampling_witness :
    ∃ c, sampleIdx (sortByWeight [0] []) [] 0 = some c ∧
      (Grid.mk [[Seat.Collapsed 0, Seat.Uncertain [0, 1]]] 2 2 1).step
        [Rule.mk 0 0 Direction.LEFT] [] (fun _ => 0) 0 =
      some { Grid.mk [[Seat.Collapsed 0, Seat.Uncertain [0, 1]]] 2 2 1 with
        data := setSeat [[Seat.Collapsed 0, Seat.Uncertain [0, 1]]] 0 1 (Seat.Collapsed c) } := by
  have hp : positions 1 2 = [(0, 0), (0, 1)] := by decide
  have hscan : entropyScan (Grid.mk [[Seat.Collapsed 0, Seat.Uncertain [0, 1]]] 2 2 1)
      (fun _ => 0) [] = ([[Seat.Collapsed 0, Seat.Uncertain [0, 1]]], (0, 1, 0)) := by
    norm_num [entropyScan, hp, scanCell, seatAt, shannon_entropy, f32MAX]
  obtain ⟨c, h1, h2, _⟩ := claim5_weighted_sampling
    (Grid.mk [[Seat.Collapsed 0, Seat.Uncertain [0, 1]]] 2 2 1)
    [Rule.mk 0 0 Direction.LEFT] [] (fun _ => 0) 0
    [[Seat.Collapsed 0, Seat.Uncertain [0, 1]]] 0 1 0 [0]
    (by norm_num) (by norm_num) hscan (by decide) (by decide)
  exact ⟨c, h1, h2⟩

/-- Evaluation shape of `generate_rules` when the interior scan is empty. -/
lemma generate_rules_no_interior (g : Grid) (counts : List ℕ)
    (hc : (positions g.h g.w).foldl (fun c p => bumpCounts c (g.seat p.1 p.2))
      (List.replicate g.num_possibilities 0) = counts)
    (hi : interiorPositions g = []) :
    generate_rules g =
      some ([], counts.map (fun v : ℕ => (v : ℚ) / ((g.w * g.h : ℕ) : ℚ))) := by
  simp [generate_rules, hc, hi]

/-- C4 (amended): on the 3-wide, 1-tall sample row `[A, B, A]` the interior
scan of `generate_rules` is empty (a one-row grid has no interior row, since
`y` ranges over `1..h-1 = 1..0`), so no rules at all are produced — in
particular neither `(A, B, LEFT)` nor `(A, B, RIGHT)` — while the weights are
still proportional to the counts `A: 2, B: 1` over three cells:
`w_A = 2/3`, `w_B = 1/3`. -/
theorem claim4_amended :
    generate_rules (Grid.mk [[Seat.Collapsed 0, Seat.Collapsed 1, Seat.Collapsed 0]] 2 3 1) =
      some ([], [2 / 3, 1 / 3]) := by
  have h := generate_rules_no_interior
    (Grid.mk [[Seat.Collapsed 0, Seat.Collapsed 1, Seat.Collapsed 0]] 2 3 1)
    [2, 1] (by decide) (by decide)
  rw [h]
  norm_num

/-- C4 counterexample: the rule list produced from the 3×1 row `[A, B, A]`
(ids `A = 0`, `B = 1`) does not contain `(A, B, LEFT)`, contradicting the
claim that the scan yields exactly `(A, B, LEFT)` and `(A, B, RIGHT)`; the
second conjunct shows the call does succeed (the list really is empty rather
than the call failing). -/
theorem claim4_no_rules_counterexample :
    Rule.mk 0 1 Direction.LEFT ∉
      ((generate_rules (Grid.mk [[Seat.Collapsed 0, Seat.Collapsed 1, Seat.Collapsed 0]] 2 3 1)).getD
        ([], [])).1 ∧
    (generate_rules (Grid.mk [[Seat.Collapsed 0, Seat.Collapsed 1, Seat.Collapsed 0]] 2 3 1)).isSome = true := by
  have h := generate_rules_no_interior
    (Grid.mk [[Seat.Collapsed 0, Seat.Collapsed 1, Seat.Collapsed 0]] 2 3 1)
    [2, 1] (by decide) (by decide)
  rw [h]
  exact ⟨by simp, rfl⟩

/-! ### Helper lemmas for the tile scan -/

/-- First-seen dedup step: the effect of one `generate_tiles` iteration on the
tile list, phrased with membership instead of `position(..)`. -/
def pushTile {T : Type} [DecidableEq T] (acc : List T) (t : T) : List T :=
  if t ∈ acc then acc else acc ++ [t]

/-- First-seen-order deduplication of a list. -/
def firstSeen {T : Type} [DecidableEq T] (l : List T) : List T :=
  l.foldl pushTile []

/-- The row-major list of tile contents of the sample. -/
def allTiles {T : Type} (gh gw : ℕ) (tileAt : ℕ → ℕ → T) : List T :=
  (positions gh gw).map (fun p => tileAt p.1 p.2)

lemma length_setSeat (d : List (List Seat)) (y x : ℕ) (s : Seat) :
    (setSeat d y x s).length = d.length :=
  List.length_set _ _ _

lemma row_length_setSeat (d : List (List Seat)) (y x : ℕ) (s : Seat) (yy : ℕ) :
    ((setSeat d y x s).getD yy []).length = (d.getD yy []).length := by
  by_cases hyy : yy = y
  · subst hyy
    by_cases hlen : yy < d.length
    · simp only [setSeat, List.getD_eq_getElem?_getD, List.getElem?_set_self hlen,
        Option.getD_some, List.length_set]
    · rw [setSeat, List.set_eq_of_length_le (le_of_not_lt hlen)]
  · rw [setSeat, List.getD_eq_getElem?_getD, List.getElem?_set_ne (fun hc => hyy hc.symm),
      ← List.getD_eq_getElem?_getD]

lemma findIdx?_stable {T : Type} [DecidableEq T] (l ext : List T) (t : T) (i : ℕ)
    (h : l.findIdx? (fun v => decide (v = t)) = some i) :
    (l ++ ext).findIdx? (fun v => decide (v = t)) = some i := by
  rw [List.findIdx?_append, h]
  rfl

lemma findIdx?_not_mem {T : Type} [DecidableEq T] (l : List T) (t : T) (h : t ∉ l) :
    l.findIdx? (fun v => decide (v = t)) = none :=
  List.findIdx?_eq_none_iff.mpr (fun x hx => decide_eq_false (fun hc => h (hc ▸ hx)))

lemma findIdx?_mem {T : Type} [DecidableEq T] (l : List T) (t : T) (i : ℕ)
    (h : l.findIdx? (fun v => decide (v = t)) = some i) : t ∈ l := by
  by_contra hmem
  rw [findIdx?_not_mem l t hmem] at h
  simp at h

lemma findIdx?_append_self {T : Type} [DecidableEq T] (l : List T) (t : T) (h : t ∉ l) :
    (l ++ [t]).findIdx? (fun v => decide (v = t)) = some l.length := by
  rw [List.findIdx?_append, findIdx?_not_mem l t h]
  simp [List.findIdx?_cons]

lemma mem_foldl_pushTile {T : Type} [DecidableEq T] :
    ∀ (l acc : List T) (a : T), a ∈ l.foldl pushTile acc ↔ a ∈ acc ∨ a ∈ l := by
  intro l
  induction l with
  | nil => intro acc a; simp
  | cons t l' ih =>
    intro acc a
    rw [List.foldl_cons, ih (pushTile acc t) a]
    have hpush : a ∈ pushTile acc t ↔ a ∈ acc ∨ a = t := by
      rw [pushTile]
      by_cases hmem : t ∈ acc
      · rw [if_pos hmem]
        constructor
        · exact Or.inl
        · rintro (h | rfl)
          · exact h
          · exact hmem
      · rw [if_neg hmem]
        simp
    rw [hpush]
    simp [or_assoc]

lemma nodup_foldl_pushTile {T : Type} [DecidableEq T] :
    ∀ (l acc : List T), acc.Nodup → (l.foldl pushTile acc).Nodup := by
  intro l
  induction l with
  | nil => intro acc h; exact h
  | cons t l' ih =>
    intro acc h
    rw [List.foldl_cons]
    refine ih (pushTile acc t) ?_
    rw [pushTile]
    by_cases hmem : t ∈ acc
    · rwa [if_pos hmem]
    · rw [if_neg hmem]
      exact List.Nodup.append h (List.nodup_singleton t)
        (List.disjoint_singleton.mpr hmem)

lemma foldlM_option_some {α β : Type} (f : β → α → Option β) :
    ∀ (l : List α), (∀ a ∈ l, ∀ b, (f b a).isSome) →
      ∀ init, (l.foldlM f init).isSome := by
  intro l
  induction l with
  | nil => intro _ init; rfl
  | cons a l' ih =>
    intro hall init
    rw [List.foldlM_cons]
    cases hfa : f init a with
    | none => exact absurd (hfa ▸ hall a (List.mem_cons_self a l') init) (by simp)
    | some b =>
      have := ih (fun a2 ha2 => hall a2 (List.mem_cons_of_mem a ha2)) b
      simpa using this

lemma incrAt_length (c : List ℕ) (i : ℕ) : (incrAt c i).length = c.length :=
  List.length_set _ _ _

lemma incrAt_getD_ne (c : List ℕ) (i j : ℕ) (h : i ≠ j) :
    (incrAt c i).getD j 0 = c.getD j 0 := by
  rw [incrAt, List.getD_eq_getElem?_getD, List.getElem?_set_ne h, ← List.getD_eq_getElem?_getD]

/-- Master invariant of the `generate_tiles` scan: starting from any grid of
the right shape and any duplicate-free tile list with
`num_possibilities = tiles.length + 1`, the fold over a duplicate-free list of
in-range positions (i) builds the tile list by first-seen dedup, (ii) keeps it
duplicate-free and only ever appends, (iii) maintains
`num_possibilities = tiles.length + 1` and the grid shape, (iv) leaves
unvisited cells alone, and (v) collapses every visited cell to the index of
its tile in the final tile list. -/
lemma generate_tiles_fold {T : Type} [DecidableEq T] (tileAt : ℕ → ℕ → T) :
    ∀ (todo : List (ℕ × ℕ)) (g : Grid) (tiles : List T) (res : Grid × List T),
      todo.foldl (tileStep tileAt) (g, tiles) = res →
      g.data.length = g.h →
      (∀ yy, yy < g.h → (g.data.getD yy []).length = g.w) →
      (∀ p ∈ todo, p.1 < g.h ∧ p.2 < g.w) →
      todo.Nodup → tiles.Nodup →
      g.num_possibilities = tiles.length + 1 →
      res.2 = todo.foldl (fun acc p => pushTile acc (tileAt p.1 p.2)) tiles ∧
      res.2.Nodup ∧
      (∃ ext, res.2 = tiles ++ ext) ∧
      res.1.num_possibilities = res.2.length + 1 ∧
      res.1.h = g.h ∧
      res.1.w = g.w ∧
      res.1.data.length = g.h ∧
      (∀ yy, yy < g.h → ((res.1.data.getD yy []).length = g.w)) ∧
      (∀ q : ℕ × ℕ, q ∉ todo → seatAt res.1.data q = seatAt g.data q) ∧
      (∀ p ∈ todo, ∃ i,
        res.2.findIdx? (fun v => decide (v = tileAt p.1 p.2)) = some i ∧
        i < res.2.length ∧
        seatAt res.1.data p = Seat.Collapsed i) := by
  intro todo
  induction todo with
  | nil =>
    intro g tiles res hres _ _ _ _ hnd hnum
    obtain rfl : (g, tiles) = res := hres
    exact ⟨rfl, hnd, ⟨[], by simp⟩, hnum, rfl, rfl, by simp_all, by simp_all,
      fun q _ => rfl, by simp⟩
  | cons p todo' ih =>
    intro g tiles res hres hlen hrow hbnd hnd hnodup hnum
    obtain ⟨hpmem, hnd'⟩ := List.nodup_cons.mp hnd
    obtain ⟨hp1, hp2⟩ := hbnd p (List.mem_cons_self p todo')
    have hbnd' : ∀ q ∈ todo', q.1 < g.h ∧ q.2 < g.w :=
      fun q hq => hbnd q (List.mem_cons_of_mem p hq)
    -- the committed id and the updated state, by cases on the membership test
    cases hfi : tiles.findIdx? (fun v => decide (v = tileAt p.1 p.2)) with
    | some v =>
      have hts : tileStep tileAt (g, tiles) p =
          ({ g with data := setSeat g.data p.1 p.2 (Seat.Collapsed v) }, tiles) := by
        rw [tileStep]
        simp only [hfi]
      have hfold : todo'.foldl (tileStep tileAt)
          ({ g with data := setSeat g.data p.1 p.2 (Seat.Collapsed v) }, tiles) = res := by
        rw [← hres, List.foldl_cons, hts]
      have hpush : pushTile tiles (tileAt p.1 p.2) = tiles := by
        rw [pushTile, if_pos (findIdx?_mem _ _ _ hfi)]
      obtain ⟨c1, c2, c3, c4, c5, c6, c7, c8, c9, c10⟩ := ih
        { g with data := setSeat g.data p.1 p.2 (Seat.Collapsed v) } tiles res hfold
        (by simpa [length_setSeat] using hlen)
        (fun yy hyy => by rw [row_length_setSeat]; exact hrow yy hyy)
        hbnd' hnd' hnodup hnum
      have hcell : seatAt res.1.data p = Seat.Collapsed v := by
        rw [c9 p hpmem]
        have := seatAt_setSeat_self g.data p.1 p.2 (Seat.Collapsed v)
          (by rw [hlen]; exact hp1) (by rw [hrow p.1 hp1]; exact hp2)
        simpa using this
      obtain ⟨ext, hext⟩ := c3
      have hidx : res.2.findIdx? (fun t => decide (t = tileAt p.1 p.2)) = some v := by
        rw [hext]
        exact findIdx?_stable _ _ _ _ hfi
      have hvlen : v < res.2.length :=
        (List.findIdx?_eq_some_iff_findIdx_eq.mp hidx).1
      refine ⟨by rw [List.foldl_cons, hpush]; exact c1, c2, ⟨ext, hext⟩, c4, c5, c6, c7, c8,
        ?_, ?_⟩
      · intro q hq
        have hq' : q ∉ todo' := fun hmem => hq (List.mem_cons_of_mem p hmem)
        have hqp : q ≠ p := fun hc => hq (hc ▸ List.mem_cons_self p todo')
        rw [c9 q hq']
        exact seatAt_setSeat_ne g.data p.1 p.2 _ q hqp
      · intro q hq
        rcases List.mem_cons.mp hq with rfl | hq2
        · exact ⟨v, hidx, hvlen, hcell⟩
        · exact c10 q hq2
    | none =>
      have hnew : tileAt p.1 p.2 ∉ tiles := by
        intro hmem
        have := List.findIdx?_eq_none_iff.mp hfi _ hmem
        simp at this
      have hts : tileStep tileAt (g, tiles) p =
          ({ g with
              data := setSeat g.data p.1 p.2 (Seat.Collapsed tiles.length)
              num_possibilities := g.num_possibilities + 1 },
            tiles ++ [tileAt p.1 p.2]) := by
        rw [tileStep]
        simp only [hfi]
      have hfold : todo'.foldl (tileStep tileAt)
          ({ g with
              data := setSeat g.data p.1 p.2 (Seat.Collapsed tiles.length)
              num_possibilities := g.num_possibilities + 1 },
            tiles ++ [tileAt p.1 p.2]) = res := by
        rw [← hres, List.foldl_cons, hts]
      have hpush : pushTile tiles (tileAt p.1 p.2) = tiles ++ [tileAt p.1 p.2] := by
        rw [pushTile, if_neg hnew]
      have hnodup1 : (tiles ++ [tileAt p.1 p.2]).Nodup :=
        List.Nodup.append hnodup (List.nodup_singleton _) (List.disjoint_singleton.mpr hnew)
      obtain ⟨c1, c2, c3, c4, c5, c6, c7, c8, c9, c10⟩ := ih
        { g with
          data := setSeat g.data p.1 p.2 (Seat.Collapsed tiles.length)
          num_possibilities := g.num_possibilities + 1 }
        (tiles ++ [tileAt p.1 p.2]) res hfold
        (by simpa [length_setSeat] using hlen)
        (fun yy hyy => by rw [row_length_setSeat]; exact hrow yy hyy)
        hbnd' hnd' hnodup1
        (by simp [hnum])
      have hcell : seatAt res.1.data p = Seat.Collapsed tiles.length := by
        rw [c9 p hpmem]
        have := seatAt_setSeat_self g.data p.1 p.2 (Seat.Collapsed tiles.length)
          (by rw [hlen]; exact hp1) (by rw [hrow p.1 hp1]; exact hp2)
        simpa using this
      obtain ⟨ext, hext⟩ := c3
      have hidx : res.2.findIdx? (fun t => decide (t = tileAt p.1 p.2)) = some tiles.length := by
        rw [hext]
        exact findIdx?_stable _ _ _ _ (findIdx?_append_self tiles _ hnew)
      have hvlen : tiles.length < res.2.length :=
        (List.findIdx?_eq_some_iff_findIdx_eq.mp hidx).1
      refine ⟨by rw [List.foldl_cons, hpush]; exact c1, c2,
        ⟨[tileAt p.1 p.2] ++ ext, by rw [hext, List.append_assoc]⟩, c4, c5, c6, c7, c8,
        ?_, ?_⟩
      · intro q hq
        have hq' : q ∉ todo' := fun hmem => hq (List.mem_cons_of_mem p hmem)
        have hqp : q ≠ p := fun hc => hq (hc ▸ List.mem_cons_self p todo')
        rw [c9 q hq']
        exact seatAt_setSeat_ne g.data p.1 p.2 _ q hqp
      · intro q hq
        rcases List.mem_cons.mp hq with rfl | hq2
        · exact ⟨tiles.length, hidx, hvlen, hcell⟩
        · exact c10 q hq2

lemma bumpCounts_length (c : List ℕ) (s : Seat) : (bumpCounts c s).length = c.length := by
  cases s with
  | Collapsed i => exact incrAt_length c i
  | Uncertain v =>
    rw [bumpCounts]
    induction v generalizing c with
    | nil => rfl
    | cons i v' ih => rw [List.foldl_cons, ih (incrAt c i), incrAt_length]

lemma foldl_bump_length (f : ℕ × ℕ → Seat) :
    ∀ (l : List (ℕ × ℕ)) (c : List ℕ),
      (l.foldl (fun c2 p => bumpCounts c2 (f p)) c).length = c.length := by
  intro l
  induction l with
  | nil => intro c; rfl
  | cons p l' ih => intro c; rw [List.foldl_cons, ih, bumpCounts_length]

lemma foldl_bump_getD (f : ℕ × ℕ → Seat) (j : ℕ) :
    ∀ (l : List (ℕ × ℕ)) (c : List ℕ),
      (∀ p ∈ l, ∃ i, f p = Seat.Collapsed i ∧ i ≠ j) →
      (l.foldl (fun c2 p => bumpCounts c2 (f p)) c).getD j 0 = c.getD j 0 := by
  intro l
  induction l with
  | nil => intro c _; rfl
  | cons p l' ih =>
    intro c hall
    obtain ⟨i, hfp, hij⟩ := hall p (List.mem_cons_self p l')
    rw [List.foldl_cons, ih _ (fun q hq => hall q (List.mem_cons_of_mem p hq)), hfp]
    exact incrAt_getD_ne c i j hij

/-- C10: after `generate_tiles` on a sample with exactly `k` distinct tiles
(by equality of tile contents), the tile list enumerates the `k` distinct
tiles in first-seen order, every cell of the returned sample grid is
`Collapsed` with the id (below `k`) of its tile in that order, but the
returned grid's `num_possibilities` is `k + 1` (it starts at 1 and is
incremented once per distinct tile), so the weight vector `generate_rules`
builds from this grid has length `k + 1` and its last entry is `0`. -/
theorem claim10_generate_tiles {T : Type} [DecidableEq T] (gw gh k : ℕ)
    (tileAt : ℕ → ℕ → T)
    (hk : (allTiles gh gw tileAt).toFinset.card = k) :
    (generate_tiles gw gh tileAt).2.length = k ∧
    (generate_tiles gw gh tileAt).2 = firstSeen (allTiles gh gw tileAt) ∧
    (generate_tiles gw gh tileAt).1.num_possibilities = k + 1 ∧
    (∀ p ∈ positions gh gw, ∃ i, i < k ∧
      (generate_tiles gw gh tileAt).2.findIdx? (fun v => decide (v = tileAt p.1 p.2)) =
        some i ∧
      seatAt (generate_tiles gw gh tileAt).1.data p = Seat.Collapsed i) ∧
    (∃ rs ws, generate_rules (generate_tiles gw gh tileAt).1 = some (rs, ws) ∧
      ws.length = k + 1 ∧ ws.getLast? = some 0) := by
  obtain ⟨c1, c2, c3, c4, c5, c6, c7, c8, c9, c10⟩ :=
    generate_tiles_fold tileAt (positions gh gw) (Grid.new gw gh 1) []
      (generate_tiles gw gh tileAt) rfl
      (by simp [Grid.new])
      (by
        intro yy hyy
        have hyy2 : yy < gh := hyy
        simp [Grid.new, List.getD_eq_getElem?_getD, List.getElem?_replicate, hyy2])
      (by
        intro p hp
        obtain ⟨y, x⟩ := p
        obtain ⟨hy, hx⟩ := List.pair_mem_product.mp hp
        exact ⟨List.mem_range.mp hy, List.mem_range.mp hx⟩)
      (nodup_positions gh gw) List.nodup_nil rfl
  have hfirst : (generate_tiles gw gh tileAt).2 = firstSeen (allTiles gh gw tileAt) := by
    rw [firstSeen, allTiles, List.foldl_map]
    exact c1
  have hmemtl : ∀ a, a ∈ (generate_tiles gw gh tileAt).2 ↔ a ∈ allTiles gh gw tileAt := by
    intro a
    rw [hfirst, firstSeen, mem_foldl_pushTile]
    simp
  have hlen : (generate_tiles gw gh tileAt).2.length = k := by
    calc (generate_tiles gw gh tileAt).2.length
        = (generate_tiles gw gh tileAt).2.toFinset.card :=
          (List.toFinset_card_of_nodup c2).symm
      _ = (allTiles gh gw tileAt).toFinset.card := by
          congr 1
          ext a
          simp only [List.mem_toFinset]
          exact hmemtl a
      _ = k := hk
  have hnum : (generate_tiles gw gh tileAt).1.num_possibilities = k + 1 := by
    rw [c4, hlen]
  have hcells : ∀ p ∈ positions gh gw, ∃ i, i < k ∧
      (generate_tiles gw gh tileAt).2.findIdx? (fun v => decide (v = tileAt p.1 p.2)) =
        some i ∧
      seatAt (generate_tiles gw gh tileAt).1.data p = Seat.Collapsed i := by
    intro p hp
    obtain ⟨i, hidx, hlt, hseat⟩ := c10 p hp
    exact ⟨i, hlen ▸ hlt, hidx, hseat⟩
  have hh : (generate_tiles gw gh tileAt).1.h = gh := c5
  have hw : (generate_tiles gw gh tileAt).1.w = gw := c6
  refine ⟨hlen, hfirst, hnum, hcells, ?_⟩
  -- the rule scan succeeds because every interior read hits a collapsed cell
  have hget : ∀ yy xx, yy < gh → xx < gw →
      ∃ i, ((generate_tiles gw gh tileAt).1.seat yy xx).get_id = some i := by
    intro yy xx hyy hxx
    obtain ⟨i, _, _, hseat⟩ := hcells (yy, xx)
      (List.pair_mem_product.mpr ⟨List.mem_range.mpr hyy, List.mem_range.mpr hxx⟩)
    refine ⟨i, ?_⟩
    rw [Grid.seat, hseat]
    rfl
  have hrstep : ∀ p ∈ interiorPositions (generate_tiles gw gh tileAt).1, ∀ b,
      (ruleStep (generate_tiles gw gh tileAt).1 b p).isSome := by
    intro p hp b
    rw [interiorPositions] at hp
    obtain ⟨y, x⟩ := p
    obtain ⟨hy, hx⟩ := List.pair_mem_product.mp hp
    obtain ⟨hy1, hy2⟩ := List.mem_range'_1.mp hy
    obtain ⟨hx1, hx2⟩ := List.mem_range'_1.mp hx
    rw [hh] at hy2
    rw [hw] at hx2
    obtain ⟨i0, h0⟩ := hget y x (by omega) (by omega)
    obtain ⟨i1, h1⟩ := hget y (x - 1) (by omega) (by omega)
    obtain ⟨i2, h2⟩ := hget y (x + 1) (by omega) (by omega)
    obtain ⟨i3, h3⟩ := hget (y + 1) x (by omega) (by omega)
    obtain ⟨i4, h4⟩ := hget (y - 1) x (by omega) (by omega)
    simp [ruleStep, h0, h1, h2, h3, h4]
  have hrsome := foldlM_option_some (ruleStep (generate_tiles gw gh tileAt).1) _ hrstep []
  obtain ⟨rsv, hrs⟩ := Option.isSome_iff_exists.mp hrsome
  have hclen : ((positions (generate_tiles gw gh tileAt).1.h
      (generate_tiles gw gh tileAt).1.w).foldl
      (fun c2 p => bumpCounts c2 ((generate_tiles gw gh tileAt).1.seat p.1 p.2))
      (List.replicate (generate_tiles gw gh tileAt).1.num_possibilities 0)).length
      = k + 1 := by
    rw [foldl_bump_length, List.length_replicate, hnum]
  have hcgetD : ((positions (generate_tiles gw gh tileAt).1.h
      (generate_tiles gw gh tileAt).1.w).foldl
      (fun c2 p => bumpCounts c2 ((generate_tiles gw gh tileAt).1.seat p.1 p.2))
      (List.replicate (generate_tiles gw gh tileAt).1.num_possibilities 0)).getD k 0
      = 0 := by
    rw [foldl_bump_getD]
    · rw [List.getD_eq_getElem?_getD, List.getElem?_replicate]
      split <;> rfl
    · intro p hp
      rw [hh, hw] at hp
      obtain ⟨i, hik, _, hseat⟩ := hcells p hp
      refine ⟨i, ?_, by omega⟩
      rw [Grid.seat]
      exact hseat
  have hgen : generate_rules (generate_tiles gw gh tileAt).1 =
      some (rsv, ((positions (generate_tiles gw gh tileAt).1.h
        (generate_tiles gw gh tileAt).1.w).foldl
        (fun c2 p => bumpCounts c2 ((generate_tiles gw gh tileAt).1.seat p.1 p.2))
        (List.replicate (generate_tiles gw gh tileAt).1.num_possibilities 0)).map
        (fun v : ℕ => (v : ℚ) / (((generate_tiles gw gh tileAt).1.w *
          (generate_tiles gw gh tileAt).1.h : ℕ) : ℚ))) := by
    simp only [generate_rules]
    rw [hrs]
    rfl
  refine ⟨rsv, _, hgen, ?_, ?_⟩
  · rw [List.length_map]
    exact hclen
  · rw [List.getLast?_eq_getElem?, List.length_map, hclen]
    simp only [Nat.add_sub_cancel, List.getElem?_map]
    have hkex : ∃ v, ((positions (generate_tiles gw gh tileAt).1.h
        (generate_tiles gw gh tileAt).1.w).foldl
        (fun c2 p => bumpCounts c2 ((generate_tiles gw gh tileAt).1.seat p.1 p.2))
        (List.replicate (generate_tiles gw gh tileAt).1.num_possibilities 0))[k]? =
        some v := by
      cases hcv : ((positions (generate_tiles gw gh tileAt).1.h
          (generate_tiles gw gh tileAt).1.w).foldl
          (fun c2 p => bumpCounts c2 ((generate_tiles gw gh tileAt).1.seat p.1 p.2))
          (List.replicate (generate_tiles gw gh tileAt).1.num_possibilities 0))[k]? with
      | none =>
        have := List.getElem?_eq_none_iff.mp hcv
        rw [hclen] at this
        omega
      | some v => exact ⟨v, rfl⟩
    obtain ⟨v, hv⟩ := hkex
    have hv0 : v = 0 := by
      rw [List.getD_eq_getElem?_getD, hv] at hcgetD
      simpa using hcgetD
    rw [hv, hv0]
    simp

/-- C10 witness: a 2×2 sample whose rows hold two distinct tiles; the tile
list has length 2 but `num_possibilities` is 3, and the weight vector has
length 3 with last entry 0. -/
theorem claim10_generate_tiles_witness :
    (generate_tiles 2 2 (fun y _ => y)).2.length = 2 ∧
    (generate_tiles 2 2 (fun y _ => y)).1.num_possibilities = 3 ∧
    (∃ rs ws, generate_rules (generate_tiles 2 2 (fun y _ => y)).1 = some (rs, ws) ∧
      ws.length = 3 ∧ ws.getLast? = some 0) := by
  have h := claim10_generate_tiles 2 2 2 (fun y _ => y) (by decide)
  exact ⟨h.1, h.2.2.1, h.2.2.2.2⟩
